import Mathlib

/-!
Verification of the Blackjack rules engine (`blackjack.py`) and its
session-backed web driver (`app.py`), shallowly embedded in Lean.

Modelling conventions:
* a card is a (rank, suit) pair, exactly as in the source;
* `random.shuffle` / `random` are modelled by quantifying over arbitrary
  deck contents: a `Shoe` carries the current deck together with the
  (finite, explicit) list of decks that future `create_deck()` calls
  would produce;
* Python's `list.pop()` removes the LAST element, so dealing pops from
  the end of the deck list;
* interactive input is modelled as an explicit list of `Choice`s; an
  exhausted list models EOF, which the source maps to "stand";
* functions whose Python counterparts could only fail on an impossible
  state (popping from an empty, unreplenishable deck) return `Option`.
-/

namespace Blackjack

inductive Rank where
  | two | three | four | five | six | seven | eight | nine | ten
  | jack | queen | king | ace
deriving DecidableEq, Repr

inductive Suit where
  | hearts | diamonds | clubs | spades
deriving DecidableEq, Repr

/-- A card is an immutable (rank, suit) pair. -/
abbrev Card := Rank × Suit

/-- The `VALUES` table of `blackjack.py`: nominal value of each rank,
with Ace nominally 11. -/
def VALUES : Rank → Nat
  | .two => 2
  | .three => 3
  | .four => 4
  | .five => 5
  | .six => 6
  | .seven => 7
  | .eight => 8
  | .nine => 9
  | .ten => 10
  | .jack => 10
  | .queen => 10
  | .king => 10
  | .ace => 11

/-- The `RANKS` list of `blackjack.py`, in source order. -/
def RANKS : List Rank :=
  [.two, .three, .four, .five, .six, .seven, .eight, .nine, .ten,
   .jack, .queen, .king, .ace]

/-- The `SUITS` list of `blackjack.py`, in source order. -/
def SUITS : List Suit := [.hearts, .diamonds, .clubs, .spades]

/-- The deck built by `create_deck()` before `random.shuffle` permutes it:
all 52 (rank, suit) combinations, iterated suit-major as in the source
comprehension. An actual `create_deck()` result is some permutation of
this list; theorems quantify over the permuted contents. -/
def create_deck_unshuffled : List Card :=
  SUITS.flatMap fun s => RANKS.map fun r => (r, s)

/-- Number of Aces in a hand (`aces` in `calculate_score`). -/
def aceCount (hand : List Card) : Nat :=
  hand.countP fun c => c.1 == Rank.ace

/-- The `while score > 21 and aces > 0: score -= 10; aces -= 1` loop of
`calculate_score`, recursing on the remaining downgradable Aces. -/
def adjustAces : Nat → Nat → Nat
  | score, 0 => score
  | score, aces + 1 => if 21 < score then adjustAces (score - 10) aces else score

/-- Model of `calculate_score`: sum nominal values (Ace as 11), then downgrade
Aces from 11 to 1 while the total exceeds 21. -/
def calculate_score (hand : List Card) : Nat :=
  adjustAces ((hand.map fun c => VALUES c.1).sum) (aceCount hand)

/-- Minimum value of a rank: the value an Ace contributes when counted
low; every other rank contributes its fixed value. -/
def minValue : Rank → Nat
  | .ace => 1
  | r => VALUES r

/-- Minimum possible total of a hand: every Ace counted as 1. -/
def minScore (hand : List Card) : Nat :=
  (hand.map fun c => minValue c.1).sum

/-- All totals attainable by choosing, for each Ace of the hand, the
value 1 or 11: with `j` Aces counted high the total is
`minScore hand + 10 * j`. -/
def aceTotals (hand : List Card) : List Nat :=
  (List.range (aceCount hand + 1)).map fun j => minScore hand + 10 * j

theorem values_eq_minValue (r : Rank) :
    VALUES r = minValue r + (if r == Rank.ace then 10 else 0) := by
  cases r <;> rfl

theorem nominal_sum_eq (hand : List Card) :
    (hand.map fun c => VALUES c.1).sum = minScore hand + 10 * aceCount hand := by
  induction hand with
  | nil => rfl
  | cons c t ih =>
    simp only [List.map_cons, List.sum_cons, minScore, aceCount, List.countP_cons] at *
    rw [values_eq_minValue c.1, ih]
    by_cases h : c.1 == Rank.ace <;> simp [h, minScore, aceCount] <;> ring

theorem adjustAces_of_gt (a m : Nat) (h : 21 < m) :
    adjustAces (m + 10 * a) a = m := by
  induction a with
  | zero => simp [adjustAces]
  | succ a ih =>
    have h1 : 21 < m + 10 * (a + 1) := by omega
    have h2 : m + 10 * (a + 1) - 10 = m + 10 * a := by omega
    simp only [adjustAces, if_pos h1, h2, ih]

theorem adjustAces_of_le (a m : Nat) (h : m ≤ 21) :
    ∃ j, j ≤ a ∧ adjustAces (m + 10 * a) a = m + 10 * j ∧ m + 10 * j ≤ 21 ∧
      ∀ k, k ≤ a → m + 10 * k ≤ 21 → k ≤ j := by
  induction a with
  | zero => exact ⟨0, Nat.le_refl 0, rfl, by omega, fun k hk _ => hk⟩
  | succ a ih =>
    by_cases hc : 21 < m + 10 * (a + 1)
    · obtain ⟨j, hj, heq, hle, hmax⟩ := ih
      have h2 : m + 10 * (a + 1) - 10 = m + 10 * a := by omega
      refine ⟨j, by omega, ?_, hle, ?_⟩
      · simp only [adjustAces, if_pos hc, h2, heq]
      · intro k hk hk21
        have hka : k ≤ a := by
          rcases Nat.eq_or_lt_of_le hk with h | h
          · exact absurd hk21 (by omega)
          · omega
        exact hmax k hka hk21
    · refine ⟨a + 1, Nat.le_refl _, ?_, by omega, fun k hk _ => hk⟩
      simp only [adjustAces, if_neg hc]

theorem calculate_score_eq_adjust (hand : List Card) :
    calculate_score hand =
      adjustAces (minScore hand + 10 * aceCount hand) (aceCount hand) := by
  rw [calculate_score, nominal_sum_eq]

theorem mem_aceTotals (hand : List Card) (t : Nat) :
    t ∈ aceTotals hand ↔ ∃ j, j ≤ aceCount hand ∧ t = minScore hand + 10 * j := by
  simp only [aceTotals, List.mem_map, List.mem_range, Nat.lt_succ_iff]
  exact ⟨fun ⟨j, hj, he⟩ => ⟨j, hj, he.symm⟩, fun ⟨j, hj, he⟩ => ⟨j, hj, he.symm⟩⟩

/-- C1: `calculate_score` returns the maximum total ≤ 21 over all
assignments of each Ace to 1 or 11 when some assignment stays at or
under 21, and otherwise the minimum possible total with every Ace
counted as 1. -/
theorem calculate_score_best (hand : List Card) :
    ((∃ t ∈ aceTotals hand, t ≤ 21) →
      calculate_score hand ∈ aceTotals hand ∧ calculate_score hand ≤ 21 ∧
        ∀ t ∈ aceTotals hand, t ≤ 21 → t ≤ calculate_score hand) ∧
    ((∀ t ∈ aceTotals hand, 21 < t) → calculate_score hand = minScore hand) := by
  constructor
  · rintro ⟨t, ht, ht21⟩
    obtain ⟨j, hj, rfl⟩ := (mem_aceTotals hand t).1 ht
    have hm : minScore hand ≤ 21 := by omega
    obtain ⟨j', hj', heq, hle, hmax⟩ := adjustAces_of_le (aceCount hand) (minScore hand) hm
    rw [calculate_score_eq_adjust, heq]
    refine ⟨(mem_aceTotals hand _).2 ⟨j', hj', rfl⟩, hle, ?_⟩
    intro t' ht' ht'21
    obtain ⟨k, hk, rfl⟩ := (mem_aceTotals hand t').1 ht'
    have := hmax k hk ht'21
    omega
  · intro hall
    have hmem : minScore hand ∈ aceTotals hand :=
      (mem_aceTotals hand _).2 ⟨0, Nat.zero_le _, by omega⟩
    have hm : 21 < minScore hand := hall _ hmem
    rw [calculate_score_eq_adjust]
    exact adjustAces_of_gt _ _ hm

/-- C10: `calculate_score` of the empty hand is 0: the empty hand is not
treated specially (both the nominal sum and the Ace count are 0), the
edge case the web layer's renderer leans on before any card is dealt. -/
theorem calculate_score_nil : calculate_score ([] : List Card) = 0 := rfl

/-- C8: `calculate_score` is invariant under reordering of the hand, and
more generally depends only on the multiset of ranks of the hand. -/
theorem calculate_score_order_invariant :
    (∀ h1 h2 : List Card, h1.Perm h2 → calculate_score h1 = calculate_score h2) ∧
    (∀ h1 h2 : List Card, (h1.map Prod.fst).Perm (h2.map Prod.fst) →
      calculate_score h1 = calculate_score h2) := by
  have key : ∀ h1 h2 : List Card, (h1.map Prod.fst).Perm (h2.map Prod.fst) →
      calculate_score h1 = calculate_score h2 := by
    intro h1 h2 hp
    have hsum : (h1.map fun c => VALUES c.1).sum = (h2.map fun c => VALUES c.1).sum := by
      have e1 : (h1.map fun c => VALUES c.1) = (h1.map Prod.fst).map VALUES := by
        simp [List.map_map]
      have e2 : (h2.map fun c => VALUES c.1) = (h2.map Prod.fst).map VALUES := by
        simp [List.map_map]
      rw [e1, e2]
      exact (hp.map VALUES).sum_eq
    have hcount : aceCount h1 = aceCount h2 := by
      have e1 : aceCount h1 = (h1.map Prod.fst).countP fun r => r == Rank.ace := by
        simp [aceCount, List.countP_map]; rfl
      have e2 : aceCount h2 = (h2.map Prod.fst).countP fun r => r == Rank.ace := by
        simp [aceCount, List.countP_map]; rfl
      rw [e1, e2, hp.countP_eq]
    rw [calculate_score, calculate_score, hsum, hcount]
  exact ⟨fun h1 h2 hp => key h1 h2 (hp.map Prod.fst), key⟩

/-- A deck together with the explicit list of decks that future
`create_deck()` calls would produce (modelling `random.shuffle`'s
outcomes; the list is finite, which suffices because every run draws
finitely many cards). -/
structure Shoe where
  deck : List Card
  fresh : List (List Card)
deriving DecidableEq, Repr

/-- Model of `deal_card`: if the deck is empty, extend it with the next
`create_deck()` result, then `pop()` — remove and return the LAST
element. `none` arises only when the deck is empty and the modelled
supply of future shuffles is exhausted (in Python, `create_deck()` is
always available, and a genuine 52-card refill makes `pop()` succeed). -/
def deal_card (s : Shoe) : Option (Card × Shoe) :=
  if s.deck.isEmpty then
    match s.fresh with
    | [] => none
    | f :: rest =>
      match (s.deck ++ f).getLast? with
      | none => none
      | some c => some (c, ⟨(s.deck ++ f).dropLast, rest⟩)
  else
    match s.deck.getLast? with
    | none => none
    | some c => some (c, ⟨s.deck.dropLast, s.fresh⟩)

theorem one_le_minValue (r : Rank) : 1 ≤ minValue r := by
  cases r <;> simp [minValue, VALUES]

theorem minScore_append (hand : List Card) (c : Card) :
    minScore (hand ++ [c]) = minScore hand + minValue c.1 := by
  simp [minScore]

theorem minScore_append_card (hand : List Card) (c : Card) :
    minScore hand + 1 ≤ minScore (hand ++ [c]) := by
  rw [minScore_append]
  have := one_le_minValue c.1
  omega

theorem adjustAces_ge (a m : Nat) : m ≤ adjustAces (m + 10 * a) a := by
  induction a with
  | zero => simp [adjustAces]
  | succ a ih =>
    by_cases hc : 21 < m + 10 * (a + 1)
    · have h2 : m + 10 * (a + 1) - 10 = m + 10 * a := by omega
      simpa only [adjustAces, if_pos hc, h2] using ih
    · simp only [adjustAces, if_neg hc]
      omega

theorem minScore_le_calculate_score (hand : List Card) :
    minScore hand ≤ calculate_score hand := by
  rw [calculate_score_eq_adjust]
  exact adjustAces_ge _ _

/-- Model of `dealer_turn`: `while calculate_score(dealer_hand) < 17:
dealer_hand.append(deal_card(deck))`. Terminates because every dealt
card raises `minScore` by at least 1 and `calculate_score` is bounded
below by `minScore`. `none` models only the exhausted-shuffle-supply
artifact of `deal_card`. -/
def dealer_turn (s : Shoe) (dealer_hand : List Card) : Option (List Card × Shoe) :=
  if _h : calculate_score dealer_hand < 17 then
    match deal_card s with
    | none => none
    | some (c, s') => dealer_turn s' (dealer_hand ++ [c])
  else
    some (dealer_hand, s)
termination_by 17 - minScore dealer_hand
decreasing_by
  have h1 : minScore dealer_hand ≤ calculate_score dealer_hand :=
    minScore_le_calculate_score dealer_hand
  have h2 : minScore dealer_hand + 1 ≤ minScore (dealer_hand ++ [c]) :=
    minScore_append_card dealer_hand c
  omega

theorem dealer_turn_no_draw (s : Shoe) (hand : List Card)
    (h : 17 ≤ calculate_score hand) : dealer_turn s hand = some (hand, s) := by
  unfold dealer_turn
  rw [dif_neg (by omega)]

theorem dealer_turn_ge17_aux :
    ∀ n : Nat, ∀ s : Shoe, ∀ hand r : List Card, ∀ s' : Shoe,
      17 - minScore hand ≤ n → dealer_turn s hand = some (r, s') →
      17 ≤ calculate_score r := by
  intro n
  induction n with
  | zero =>
    intro s hand r s' hn h
    have h1 : minScore hand ≤ calculate_score hand := minScore_le_calculate_score hand
    have h17 : ¬ calculate_score hand < 17 := by omega
    unfold dealer_turn at h
    rw [dif_neg h17] at h
    cases h
    omega
  | succ n ih =>
    intro s hand r s' hn h
    by_cases hc : calculate_score hand < 17
    · unfold dealer_turn at h
      rw [dif_pos hc] at h
      cases hdeal : deal_card s with
      | none => rw [hdeal] at h; cases h
      | some cs =>
        obtain ⟨c, s2⟩ := cs
        rw [hdeal] at h
        have h1 : minScore hand ≤ calculate_score hand := minScore_le_calculate_score hand
        have h2 : minScore hand + 1 ≤ minScore (hand ++ [c]) := minScore_append_card hand c
        exact ih s2 (hand ++ [c]) r s' (by omega) h
    · unfold dealer_turn at h
      rw [dif_neg hc] at h
      cases h
      omega

/-- C3: the dealer draws exactly while the hand scores below 17: whenever
`dealer_turn` returns, the final dealer score is at least 17; and as soon
as the score is 17 or more — including a soft 17 such as Ace + 6 — no
further card is dealt and the hand and shoe are returned unchanged. -/
theorem dealer_turn_stops_at_17 (s : Shoe) (dealer_hand : List Card) :
    (∀ r s', dealer_turn s dealer_hand = some (r, s') → 17 ≤ calculate_score r) ∧
    (17 ≤ calculate_score dealer_hand → dealer_turn s dealer_hand = some (dealer_hand, s)) ∧
    dealer_turn s [(Rank.ace, Suit.spades), (Rank.six, Suit.hearts)] =
      some ([(Rank.ace, Suit.spades), (Rank.six, Suit.hearts)], s) := by
  refine ⟨?_, ?_, ?_⟩
  · intro r s' h
    exact dealer_turn_ge17_aux (17 - minScore dealer_hand) s dealer_hand r s' (Nat.le_refl _) h
  · intro h17
    exact dealer_turn_no_draw s dealer_hand h17
  · exact dealer_turn_no_draw s _ (by decide)

theorem dealer_turn_len_aux :
    ∀ n : Nat, ∀ s : Shoe, ∀ hand r : List Card, ∀ s' : Shoe,
      17 - minScore hand ≤ n → dealer_turn s hand = some (r, s') →
      r.length ≤ hand.length + (17 - minScore hand) := by
  intro n
  induction n with
  | zero =>
    intro s hand r s' hn h
    have h1 : minScore hand ≤ calculate_score hand := minScore_le_calculate_score hand
    have h17 : ¬ calculate_score hand < 17 := by omega
    unfold dealer_turn at h
    rw [dif_neg h17] at h
    cases h
    omega
  | succ n ih =>
    intro s hand r s' hn h
    by_cases hc : calculate_score hand < 17
    · unfold dealer_turn at h
      rw [dif_pos hc] at h
      cases hdeal : deal_card s with
      | none => rw [hdeal] at h; cases h
      | some cs =>
        obtain ⟨c, s2⟩ := cs
        rw [hdeal] at h
        have h1 : minScore hand ≤ calculate_score hand := minScore_le_calculate_score hand
        have h2 : minScore hand + 1 ≤ minScore (hand ++ [c]) := minScore_append_card hand c
        have hb := ih s2 (hand ++ [c]) r s' (by omega) h
        have hlen : (hand ++ [c]).length = hand.length + 1 := by simp
        omega
    · unfold dealer_turn at h
      rw [dif_neg hc] at h
      cases h
      omega

/-- C9: the dealer draw loop terminates: every dealt card raises the
hand's minimum score (all Aces low) by at least 1, `calculate_score` is
bounded below by that minimum, and consequently the loop makes at most
`17 - minScore` draws — witnessed by the bound on the final hand length
(and by `dealer_turn` being definable by well-founded recursion on
`17 - minScore`). -/
theorem dealer_turn_draw_bound (s : Shoe) (dealer_hand : List Card) :
    (∀ c : Card, minScore dealer_hand + 1 ≤ minScore (dealer_hand ++ [c])) ∧
    minScore dealer_hand ≤ calculate_score dealer_hand ∧
    (∀ r s', dealer_turn s dealer_hand = some (r, s') →
      r.length ≤ dealer_hand.length + (17 - minScore dealer_hand)) := by
  refine ⟨fun c => minScore_append_card dealer_hand c,
    minScore_le_calculate_score dealer_hand, fun r s' h => ?_⟩
  exact dealer_turn_len_aux (17 - minScore dealer_hand) s dealer_hand r s' (Nat.le_refl _) h

/-- C7: `deal_card` on an empty deck does not fail: the deck is extended
with the freshly created 52-card deck (appending to the same sequence),
one card is popped from the end, and exactly 51 cards remain. -/
theorem deal_card_empty_deck_replenishes (d : List Card) (rest : List (List Card))
    (h : d.length = 52) :
    ∃ c s', deal_card ⟨[], d :: rest⟩ = some (c, s') ∧
      s'.deck.length = 51 ∧ s'.deck ++ [c] = d ∧ s'.fresh = rest := by
  have hne : d ≠ [] := by
    intro he
    rw [he] at h
    simp at h
  refine ⟨d.getLast hne, ⟨d.dropLast, rest⟩, ?_, ?_, ?_, rfl⟩
  · simp [deal_card, List.getLast?_eq_getLast d hne]
  · simp [List.length_dropLast, h]
  · exact List.dropLast_append_getLast hne

/-- C7 witness: dealing from an empty deck backed by one fresh standard
deck succeeds and leaves 51 cards. -/
theorem deal_card_empty_deck_replenishes_witness :
    ∃ c s', deal_card ⟨[], [create_deck_unshuffled]⟩ = some (c, s') ∧
      s'.deck.length = 51 ∧ s'.deck ++ [c] = create_deck_unshuffled ∧ s'.fresh = [] :=
  deal_card_empty_deck_replenishes create_deck_unshuffled [] (by decide)

/-- One parsed player input of `player_turn`: "h"/"hit", "s"/"stand", or
anything else (re-prompted without consuming a turn). EOF is modelled by
the choice list running out, which the source maps to "s". -/
inductive Choice where
  | hit
  | stand
  | invalid
deriving DecidableEq, Repr

/-- Model of `player_turn`: loop showing the table and asking to hit or stand.
Breaks when the score reaches 21 or busts; a hit appends one dealt card;
an unrecognized input loops without mutating anything. Returns the final
player hand, the shoe, and the unconsumed inputs. -/
def player_turn (s : Shoe) (player_hand dealer_hand : List Card)
    (choices : List Choice) : Option (List Card × Shoe × List Choice) :=
  if calculate_score player_hand = 21 then some (player_hand, s, choices)
  else if 21 < calculate_score player_hand then some (player_hand, s, choices)
  else
    match choices with
    | [] => some (player_hand, s, [])
    | Choice.hit :: rest =>
      match deal_card s with
      | none => none
      | some (c, s') => player_turn s' (player_hand ++ [c]) dealer_hand rest
    | Choice.stand :: rest => some (player_hand, s, rest)
    | Choice.invalid :: rest => player_turn s player_hand dealer_hand rest

/-- The initial deal of `play_round`: two cards to the player, then two
to the dealer, in source evaluation order. -/
def initial_deal (s : Shoe) : Option (List Card × List Card × Shoe) :=
  match deal_card s with
  | none => none
  | some (p1, s1) =>
    match deal_card s1 with
    | none => none
    | some (p2, s2) =>
      match deal_card s2 with
      | none => none
      | some (d1, s3) =>
        match deal_card s3 with
        | none => none
        | some (d2, s4) => some ([p1, p2], [d1, d2], s4)

/-- Model of `determine_winner`: compare final scores; 1 for a player win, -1 for
a loss, 0 for a push. -/
def determine_winner (player_hand dealer_hand : List Card) : Int :=
  if 21 < calculate_score player_hand then -1
  else if 21 < calculate_score dealer_hand then 1
  else if calculate_score dealer_hand < calculate_score player_hand then 1
  else if calculate_score player_hand < calculate_score dealer_hand then -1
  else 0

/-- Round outcome relative to the player. -/
inductive Outcome where
  | win
  | loss
  | push
deriving DecidableEq, Repr

/-- The integer code the source uses for an outcome. -/
def outcomeCode : Outcome → Int
  | .win => 1
  | .loss => -1
  | .push => 0

/-- Resolution precedence exactly as the spec words it: player bust →
Loss; else dealer bust → Win; else higher player score → Win; else
higher dealer score → Loss; else Push. -/
def spec_resolve (ps ds : Nat) : Outcome :=
  if 21 < ps then .loss
  else if 21 < ds then .win
  else if ds < ps then .win
  else if ps < ds then .loss
  else .push

/-- A wins/losses/pushes record bumped by one outcome, as the spec
describes the Record counters. -/
def bumpRecord : Nat × Nat × Nat → Outcome → Nat × Nat × Nat
  | (w, l, p), .win => (w + 1, l, p)
  | (w, l, p), .loss => (w, l + 1, p)
  | (w, l, p), .push => (w, l, p + 1)

/-- Model of `play_round`: initial deal, natural-blackjack check, player turn,
dealer turn (only if the player did not bust), winner determination.
Returns the outcome code with the final hands and shoe. -/
def play_round (s : Shoe) (choices : List Choice) :
    Option (Int × List Card × List Card × Shoe) :=
  match initial_deal s with
  | none => none
  | some (player_hand, dealer_hand, s4) =>
    if calculate_score player_hand = 21 ∨ calculate_score dealer_hand = 21 then
      if calculate_score player_hand = 21 ∧ calculate_score dealer_hand = 21 then
        some (0, player_hand, dealer_hand, s4)
      else if calculate_score player_hand = 21 then
        some (1, player_hand, dealer_hand, s4)
      else
        some (-1, player_hand, dealer_hand, s4)
    else
      match player_turn s4 player_hand dealer_hand choices with
      | none => none
      | some (player2, s5, _) =>
        if calculate_score player2 ≤ 21 then
          match dealer_turn s5 dealer_hand with
          | none => none
          | some (dealer2, s6) =>
            some (determine_winner player2 dealer2, player2, dealer2, s6)
        else
          some (determine_winner player2 dealer_hand, player2, dealer_hand, s5)

/-- The per-session state `app.py` keeps in the Flask session: deck (as
a shoe), both hands, the round-over flag, the Record counters and the
banner message. -/
structure GameState where
  shoe : Shoe
  player : List Card
  dealer : List Card
  game_over : Bool
  wins : Nat
  losses : Nat
  pushes : Nat
  message : String
deriving DecidableEq, Repr

/-- The shared resolution helper `_stand` of `app.py`: run the dealer
draw loop, mark the round over, then compare scores and bump exactly one
counter. -/
def standCore (g : GameState) : Option GameState :=
  match dealer_turn g.shoe g.dealer with
  | none => none
  | some (dealer, s') =>
    if 21 < calculate_score g.player then
      some { g with
             shoe := s'
             dealer := dealer
             game_over := true
             message := "You busted! Dealer wins."
             losses := g.losses + 1 }
    else if 21 < calculate_score dealer then
      some { g with
             shoe := s'
             dealer := dealer
             game_over := true
             message := "Dealer busted! You win!"
             wins := g.wins + 1 }
    else if calculate_score dealer < calculate_score g.player then
      some { g with
             shoe := s'
             dealer := dealer
             game_over := true
             message := "You win!"
             wins := g.wins + 1 }
    else if calculate_score g.player < calculate_score dealer then
      some { g with
             shoe := s'
             dealer := dealer
             game_over := true
             message := "Dealer wins!"
             losses := g.losses + 1 }
    else
      some { g with
             shoe := s'
             dealer := dealer
             game_over := true
             message := "Push (tie)!"
             pushes := g.pushes + 1 }

/-- The `/hit` route: a no-op on a finished round; otherwise deal one
card to the player, then bust → immediate loss, 21 → implicit stand,
else keep playing. -/
def app_hit (g : GameState) : Option GameState :=
  if g.game_over then some g
  else
    match deal_card g.shoe with
    | none => none
    | some (c, s') =>
      let g1 := { g with shoe := s', player := g.player ++ [c] }
      if 21 < calculate_score g1.player then
        some { g1 with
               game_over := true
               message := "You busted! Dealer wins."
               losses := g1.losses + 1 }
      else if calculate_score g1.player = 21 then
        standCore g1
      else
        some g1

/-- The `/stand` route: a no-op on a finished round; otherwise resolve
via `standCore`. -/
def app_stand (g : GameState) : Option GameState :=
  if g.game_over then some g else standCore g

theorem standCore_game_over (g g' : GameState) (h : standCore g = some g') :
    g'.game_over = true := by
  cases hd : dealer_turn g.shoe g.dealer with
  | none => simp [standCore, hd] at h
  | some ds =>
    obtain ⟨dealer, s'⟩ := ds
    simp only [standCore, hd] at h
    split_ifs at h <;> (injection h with h2; rw [← h2])

/-- C2: round resolution follows the spec's fixed precedence on the two
`calculate_score` values: player bust → Loss, else dealer bust → Win,
else higher player score → Win, else higher dealer score → Loss, else
Push — both in `determine_winner` (CLI) and in the counter updates of
the web layer's `_stand` resolution. -/
theorem determine_winner_follows_spec :
    (∀ player_hand dealer_hand : List Card,
      determine_winner player_hand dealer_hand =
        outcomeCode (spec_resolve (calculate_score player_hand)
          (calculate_score dealer_hand))) ∧
    (∀ g g' : GameState, standCore g = some g' →
      (g'.wins, g'.losses, g'.pushes) =
        bumpRecord (g.wins, g.losses, g.pushes)
          (spec_resolve (calculate_score g.player) (calculate_score g'.dealer))) := by
  constructor
  · intro p d
    simp only [determine_winner, spec_resolve]
    split_ifs <;> rfl
  · intro g g' h
    cases hd : dealer_turn g.shoe g.dealer with
    | none => simp [standCore, hd] at h
    | some ds =>
      obtain ⟨dealer, s'⟩ := ds
      simp only [standCore, hd] at h
      split_ifs at h with h1 h2 h3 h4 <;>
        (injection h with h5; subst h5; simp [spec_resolve, bumpRecord, h1, *])

/-- C4: if either initial two-card hand scores exactly 21 the round
resolves immediately — no player turn, no dealer turn, shoe and hands
exactly as dealt — with Push when both have 21, Win when only the
player does, Loss when only the dealer does. -/
theorem play_round_natural_blackjack (s : Shoe) (choices : List Choice)
    (P D : List Card) (s4 : Shoe)
    (hdeal : initial_deal s = some (P, D, s4))
    (hbj : calculate_score P = 21 ∨ calculate_score D = 21) :
    play_round s choices = some
      ((if calculate_score P = 21 ∧ calculate_score D = 21 then 0
        else if calculate_score P = 21 then (1 : Int) else -1), P, D, s4) := by
  simp only [play_round, hdeal]
  rw [if_pos hbj]
  split_ifs <;> rfl

/-- C4 witness: the spec's own instance — player {Ace, King} against
dealer {9, 8} resolves to Win straight from the deal. -/
theorem play_round_natural_blackjack_witness :
    play_round ⟨[(Rank.eight, Suit.hearts), (Rank.nine, Suit.hearts),
                 (Rank.king, Suit.spades), (Rank.ace, Suit.spades)], []⟩ [] =
      some (1, [(Rank.ace, Suit.spades), (Rank.king, Suit.spades)],
            [(Rank.nine, Suit.hearts), (Rank.eight, Suit.hearts)], ⟨[], []⟩) := by
  have h := play_round_natural_blackjack
    ⟨[(Rank.eight, Suit.hearts), (Rank.nine, Suit.hearts),
      (Rank.king, Suit.spades), (Rank.ace, Suit.spades)], []⟩ []
    [(Rank.ace, Suit.spades), (Rank.king, Suit.spades)]
    [(Rank.nine, Suit.hearts), (Rank.eight, Suit.hearts)] ⟨[], []⟩
    (by decide) (Or.inl (by decide))
  rw [h]
  decide

/-- C5: a Hit that takes the player over 21 ends the round at once with
outcome Loss and leaves the dealer's hand untouched: in `play_round` the
dealer loop is skipped and the dealt hands and shoe pass through
unchanged, and in the web `/hit` route only the player hand, deck,
round flag, message and loss counter change. -/
theorem player_bust_immediate_loss :
    (∀ (s : Shoe) (choices : List Choice) (P D P2 : List Card) (s4 s5 : Shoe)
      (rest : List Choice),
      initial_deal s = some (P, D, s4) →
      calculate_score P ≠ 21 → calculate_score D ≠ 21 →
      player_turn s4 P D choices = some (P2, s5, rest) →
      21 < calculate_score P2 →
      play_round s choices = some (-1, P2, D, s5)) ∧
    (∀ (g : GameState) (c : Card) (s' : Shoe),
      g.game_over = false →
      deal_card g.shoe = some (c, s') →
      21 < calculate_score (g.player ++ [c]) →
      app_hit g = some { g with
                         shoe := s'
                         player := g.player ++ [c]
                         game_over := true
                         message := "You busted! Dealer wins."
                         losses := g.losses + 1 }) := by
  constructor
  · intro s choices P D P2 s4 s5 rest hdeal hP hD hpt h21
    simp only [play_round, hdeal]
    rw [if_neg (by tauto)]
    simp only [hpt]
    rw [if_neg (by omega)]
    have hw : determine_winner P2 D = -1 := by
      rw [determine_winner, if_pos h21]
    rw [hw]
  · intro g c s' hgo hdeal h21
    simp [app_hit, hgo, hdeal, h21]

/-- C6: once a round is resolved (`game_over`), Hit and Stand are exact
no-ops — hands, deck, counters and message all unchanged — and since any
successful Stand leaves the round resolved, a second Stand never bumps
the Record counters again. -/
theorem resolved_round_actions_noop (g : GameState) :
    (g.game_over = true → app_hit g = some g ∧ app_stand g = some g) ∧
    (∀ g', app_stand g = some g' → app_stand g' = some g') := by
  constructor
  · intro h
    exact ⟨by simp [app_hit, h], by simp [app_stand, h]⟩
  · intro g' h
    by_cases hg : g.game_over
    · rw [app_stand, if_pos hg] at h
      injection h with h2
      subst h2
      simp [app_stand, hg]
    · rw [app_stand, if_neg hg] at h
      have hgo : g'.game_over = true := standCore_game_over g g' h
      simp [app_stand, hgo]

end Blackjack
